import Mathlib

/-!
Shallow embedding of the funding-arbitrage repository: the on-chain funding
program (`src/funding-program/src/state.rs`, `processor.rs`), the off-chain
funding relayer (`src/bot/src/services/funding_relayer.rs`), and the mango
order-book iterator and funding math (`src/third-party/mango/src/iter.rs`,
`lib.rs`).  Machine integers are modelled as `Nat`/`Int`; two's-complement
reinterpretation and wrapping are explicit where the source relies on them.
Rust panics (out-of-bounds `Vec::remove`, division by zero, `Option::unwrap`
on `None`) are modelled as `Option.none` / error results.
-/

set_option maxRecDepth 8000

namespace FundingArb

/-- Reinterpret a `u64` bit pattern as an `i64`, as Rust's `as i64` cast. -/
def i64ofU64 (n : Nat) : Int :=
  if n % 2 ^ 64 < 2 ^ 63 then ((n % 2 ^ 64 : Nat) : Int)
  else ((n % 2 ^ 64 : Nat) : Int) - 2 ^ 64

/-- Wrap an integer into the `i64` range (two's-complement wrapping arithmetic,
Rust release-mode overflow behaviour). -/
def wrap64 (x : Int) : Int := (x + 2 ^ 63) % 2 ^ 64 - 2 ^ 63

/-- Wrap an integer into the `i128` range. -/
def wrap128 (x : Int) : Int := (x + 2 ^ 127) % 2 ^ 128 - 2 ^ 127

/-- Rust `i64::saturating_add`. -/
def satAdd64 (a b : Int) : Int := max (-(2 ^ 63)) (min (2 ^ 63 - 1) (a + b))

/-- Rust `u64::checked_add`. -/
def u64checkedAdd (a b : Nat) : Option Nat :=
  if a + b < 2 ^ 64 then some (a + b) else none

/-- Rust `u64` wrapping subtraction (release-mode `-` on `u64`). -/
def u64sub (a b : Nat) : Nat := (a + 2 ^ 64 - b % 2 ^ 64) % 2 ^ 64

theorem i64ofU64_eq_self {n : Nat} (h : n < 2 ^ 63) : i64ofU64 n = (n : Int) := by
  unfold i64ofU64
  have h64 : n % 2 ^ 64 = n := Nat.mod_eq_of_lt (by omega)
  rw [h64]
  simp only [if_pos h]

theorem wrap64_eq_self {x : Int} (h1 : -(2 ^ 63) ≤ x) (h2 : x < 2 ^ 63) : wrap64 x = x := by
  unfold wrap64
  omega

theorem wrap128_eq_self {x : Int} (h1 : -(2 ^ 127) ≤ x) (h2 : x < 2 ^ 127) : wrap128 x = x := by
  unfold wrap128
  omega

theorem u64sub_eq_sub {a b : Nat} (hb : b ≤ a) (ha : a < 2 ^ 64) : u64sub a b = a - b := by
  unfold u64sub
  have hb64 : b % 2 ^ 64 = b := Nat.mod_eq_of_lt (by omega)
  rw [hb64]
  omega

theorem satAdd64_eq_add {a b : Int} (h1 : -(2 ^ 63) ≤ a + b) (h2 : a + b < 2 ^ 63) :
    satAdd64 a b = a + b := by
  unfold satAdd64
  omega

/-! ## Funding program: `src/funding-program/src/state.rs` -/

/-- The `Exchange` enum (`state.rs`), `#[repr(C)]` with discriminants Drift = 0, Mango = 1. -/
inductive Exchange
  | Drift
  | Mango
deriving DecidableEq

def Exchange.discriminator : Exchange → Nat
  | .Drift => 0
  | .Mango => 1

/-- `FundingAccountConfig` (`state.rs`): `update_frequency_secs : u64`,
`staleness_threshold_secs : u64`, `period_length : u32`, `data_points_count : u16`. -/
structure FundingAccountConfig where
  update_frequency_secs : Nat
  staleness_threshold_secs : Nat
  period_length : Nat
  data_points_count : Nat
deriving DecidableEq

/-- `FundingAccountFixed` (`state.rs`).  `authority` is an opaque 32-byte key,
modelled as a `Nat` identifier. -/
structure FundingAccountFixed where
  bump : Nat
  id : Nat
  exchange : Exchange
  market_index : Nat
  authority : Nat
  last_updated_ts : Int
  config : FundingAccountConfig
  funding_ema : Option Int
deriving DecidableEq

/-- `FundingAccountFixed::SIZE = std::mem::size_of::<FundingAccountFixed>()`.
The struct is `repr(Rust)` with alignment 8; its fields occupy
`bump: u8` (1) + `id: u16` (2) + `exchange: Exchange` (4, a `repr(C)`
fieldless enum has the size of a C `int`) + `market_index: u16` (2) +
`authority: Pubkey = [u8; 32]` (32, align 1) + `last_updated_ts: i64` (8) +
`config: FundingAccountConfig` (8 + 8 + 4 + 2 = 22, padded to its own
alignment 8, hence 24) + `funding_ema: Option<i64>` (16, no niche for `i64`),
for 89 bytes of field data; rustc's size-minimising field order packs them
without interior padding and rounds the struct size up to the alignment 8,
giving 96.  Note any admissible layout is at least 89 bytes rounded up to a
multiple of 8, so `SIZE` is at least 96 and in particular is not 77 (the
Borsh-serialised width of the same fields). -/
def FundingAccountFixed.SIZE : Nat := 96

/-- `FundingAccountFixed::DATA_POINT_SIZE = std::mem::size_of::<Option<i64>>() = 16`. -/
def FundingAccountFixed.DATA_POINT_SIZE : Nat := 16

/-- A loaded funding account: parsed fixed header plus the dynamic data-point
region.  The dynamic byte region of length `DATA_POINT_SIZE * k` is modelled as
a list of `k` optional data points (each 16-byte slot Borsh-encodes an
`Option<i64>`; an all-zero slot reads as `None`). -/
structure FundingAccount where
  fixed : FundingAccountFixed
  data_points : List (Option Int)
deriving DecidableEq

namespace FundingAccountLoader

/-- `FundingAccountLoader::size`. -/
def size (data_points_count : Nat) : Nat :=
  FundingAccountFixed.SIZE + FundingAccountFixed.DATA_POINT_SIZE * data_points_count

/-- `FundingAccountLoader::load_data_point`: read slot `i` of the dynamic
region.  (In the source an out-of-range read would panic; with the loader
invariant the region has exactly `data_points_count` slots.) -/
def load_data_point (a : FundingAccount) (i : Nat) : Option Int :=
  a.data_points.getD i none

/-- The body of the `for i in 1..n` loop of `FundingAccountLoader::update_ema`,
unrolled with an explicit iteration count `fuel = n - i₀`.  The source unwraps
each loaded point; an unwrap of `None` is modelled as `none`. -/
def update_ema_go (a : FundingAccount) (k : Int) (ema : Int) (i : Nat) : Nat → Option Int
  | 0 => some ema
  | fuel + 1 =>
    match load_data_point a i with
    | none => none
    | some data_point =>
      update_ema_go a k (Int.tdiv ((data_point - ema) * 2) k + ema) (i + 1) fuel

/-- `FundingAccountLoader::update_ema`: seed with point 0, then for
`i in 1..data_points_count` set `ema = (points[i] - ema) * 2 / (period_length + 1) + ema`
(Rust `i64` division truncates toward zero, `Int.tdiv`), storing the result in
`funding_ema`. -/
def update_ema (a : FundingAccount) : Option FundingAccount :=
  match load_data_point a 0 with
  | none => none
  | some ema0 =>
    let k : Int := (a.fixed.config.period_length : Int) + 1
    (update_ema_go a k ema0 1 (a.fixed.config.data_points_count - 1)).map fun ema =>
      { a with fixed := { a.fixed with funding_ema := some ema } }

/-- The `for i in 0..data_points_count` scan of `update_data_points` looking
for the first vacant slot, with `fuel = data_points_count - i₀`. -/
def find_first_none_from (a : FundingAccount) (i : Nat) : Nat → Option Nat
  | 0 => none
  | fuel + 1 =>
    if (load_data_point a i).isNone then some i
    else find_first_none_from a (i + 1) fuel

/-- `FundingAccountLoader::update_data_points`: write the new point into the
first vacant slot if any; otherwise `sol_memmove` the region left by one slot,
write the new point at index `data_points_count - 1` and recompute the EMA.
Under the loader invariant the region has exactly `data_points_count` slots, so
the memmove-then-write is `tail ++ [some p]`. -/
def update_data_points (a : FundingAccount) (new_data_point : Int) : Option FundingAccount :=
  match find_first_none_from a 0 a.fixed.config.data_points_count with
  | some i => some { a with data_points := a.data_points.set i (some new_data_point) }
  | none =>
    update_ema { a with data_points := a.data_points.tail ++ [some new_data_point] }

/-- `FundingAccountLoader::reset_data_points_and_write_first`: clear the EMA,
write the point at slot 0 and `None` at slots `1..data_points_count`. -/
def reset_data_points_and_write_first (a : FundingAccount) (data_point : Int) : FundingAccount :=
  { a with
    fixed := { a.fixed with funding_ema := none },
    data_points :=
      some data_point :: List.replicate (a.fixed.config.data_points_count - 1) none }

end FundingAccountLoader

/-- Program-level errors: the custom `ErrorCode` enum of `error.rs` plus the
`solana_program::ProgramError` variants the handlers raise. -/
inductive ProgErr
  | AccountsNeedToBeWritable
  | InvalidAccount
  | MissingOrInvalidAuthority
  | CouldNotSerializeAccount
  | UpdateTooSoon
  | LamportsOverflow
  | InvalidInstructionData
  | InvalidAccountData
  | AccountDataTooSmall
deriving DecidableEq

/-! ## Funding program: `src/funding-program/src/processor.rs` -/

/-- The validation performed by `FundingAccountLoader::try_load` on every load
other than `Initialize` (`state.rs`): writability, owner, minimum data length,
dynamic-region length against the stored `data_points_count`, PDA address and
bump, and authority.  The PDA re-derivation (`find_program_address`, a SHA-256
search) is modelled by the boolean input `pda_and_bump_match`; `data_len` is
the account's byte length, whose dynamic part is `data_len - SIZE` after
`split_at_mut(SIZE)`. -/
def try_load_checks (is_writable : Bool) (owner_is_program : Bool) (data_len : Nat)
    (fixed : FundingAccountFixed) (pda_and_bump_match : Bool) (signer : Nat) :
    Except ProgErr Unit :=
  if ¬is_writable then .error .AccountsNeedToBeWritable
  else if ¬owner_is_program then .error .InvalidAccount
  else if data_len < FundingAccountFixed.SIZE then .error .AccountDataTooSmall
  else if data_len - FundingAccountFixed.SIZE ≠
      FundingAccountFixed.DATA_POINT_SIZE * fixed.config.data_points_count then
    .error .InvalidAccountData
  else if ¬pda_and_bump_match then .error .InvalidAccountData
  else if fixed.authority ≠ signer then .error .MissingOrInvalidAuthority
  else .ok ()

/-- `update_funding` (`processor.rs`): on a validly loaded account, reset and
seed when `now_ts > last_updated_ts + staleness_threshold_secs` (the `u64`
configuration field is reinterpreted as `i64`, and the `i64` addition wraps);
otherwise fail `UpdateTooSoon` when `now_ts < last_updated_ts +
update_frequency_secs`, else append the point (recomputing the EMA when the
ring is full) and stamp `last_updated_ts = now_ts`. -/
def update_funding (a : FundingAccount) (data_point : Int) (now_ts : Int) :
    Except ProgErr FundingAccount :=
  let stale_ts :=
    wrap64 (a.fixed.last_updated_ts + i64ofU64 a.fixed.config.staleness_threshold_secs)
  if now_ts > stale_ts then
    let a1 := FundingAccountLoader.reset_data_points_and_write_first a data_point
    .ok { a1 with fixed := { a1.fixed with last_updated_ts := now_ts } }
  else
    let update_ts :=
      wrap64 (a.fixed.last_updated_ts + i64ofU64 a.fixed.config.update_frequency_secs)
    if now_ts < update_ts then .error .UpdateTooSoon
    else
      match FundingAccountLoader.update_data_points a data_point with
      | none => .error .InvalidAccountData
      | some a1 => .ok { a1 with fixed := { a1.fixed with last_updated_ts := now_ts } }

/-- The optional arguments of the `Configure` instruction. -/
structure ConfigureArgs where
  update_frequency_secs : Option Nat
  staleness_threshold_secs : Option Nat
  period_length : Option Nat
  data_points_count : Option Nat
deriving DecidableEq

/-- The state `configure_funding_account` acts on beyond the funding account
itself: the external rent sysvar (`Rent::minimum_balance`, a function of the
account size), and the signer's and funding account's lamport balances. -/
structure ConfigureCtx where
  rent_minimum_balance : Nat → Nat
  signer_is_writable : Bool
  signer_lamports : Nat
  funding_lamports : Nat

/-- Result of a `Configure`: the new account contents and the two lamport
balances (signer, funding account). -/
structure ConfigureOutcome where
  account : FundingAccount
  signer_lamports : Nat
  funding_lamports : Nat
deriving DecidableEq

/-- `configure_funding_account` (`processor.rs`): validate the combined
invariants, then either update only the cadence fields (`data_points_count =
None`) or resize the ring.  Any resize clears `funding_ema`; a shrink
additionally zeroes `last_updated_ts`, refunds the excess above the new
rent-exempt minimum to the signer, and zero-initialises the whole dynamic
region (`sol_memset`).  A growth transfers the rent shortfall from the signer
(the system-program transfer's own failure when the signer lacks funds is
modelled as `InvalidAccountData`) and relies on the allocator zero-filling the
grown bytes, so the new slots read as `None`. -/
def configure_funding_account (ctx : ConfigureCtx) (a : FundingAccount)
    (args : ConfigureArgs) : Except ProgErr ConfigureOutcome :=
  let config := a.fixed.config
  let new_update_freq := args.update_frequency_secs.getD config.update_frequency_secs
  let new_staleness_threshold :=
    args.staleness_threshold_secs.getD config.staleness_threshold_secs
  if new_update_freq ≥ new_staleness_threshold then .error .InvalidInstructionData
  else if args.period_length = some 0 then .error .InvalidInstructionData
  else
    let new_period_length := args.period_length.getD config.period_length
    match args.data_points_count with
    | none =>
      .ok
        { account :=
            { a with
              fixed :=
                { a.fixed with
                  config :=
                    { config with
                      update_frequency_secs := new_update_freq
                      staleness_threshold_secs := new_staleness_threshold
                      period_length := new_period_length } } }
          signer_lamports := ctx.signer_lamports
          funding_lamports := ctx.funding_lamports }
    | some new_count =>
      if new_count ≤ 1 then .error .InvalidInstructionData
      else
        let prev_count := config.data_points_count
        let new_size := FundingAccountLoader.size new_count
        let new_fixed :=
          { a.fixed with
            funding_ema := none
            config :=
              { update_frequency_secs := new_update_freq
                staleness_threshold_secs := new_staleness_threshold
                period_length := new_period_length
                data_points_count := new_count } }
        if new_count < prev_count then
          let new_fixed := { new_fixed with last_updated_ts := 0 }
          let new_lamports := ctx.rent_minimum_balance new_size
          let remaining_lamports := u64sub ctx.funding_lamports new_lamports
          let shrunk : Nat → Nat → Except ProgErr ConfigureOutcome :=
            fun signer_lamports funding_lamports =>
              .ok
                { account :=
                    { fixed := new_fixed
                      data_points := List.replicate new_count none }
                  signer_lamports := signer_lamports
                  funding_lamports := funding_lamports }
          if remaining_lamports > 0 then
            if ¬ctx.signer_is_writable then .error .AccountsNeedToBeWritable
            else
              match u64checkedAdd ctx.signer_lamports remaining_lamports with
              | none => .error .LamportsOverflow
              | some receiver_lamports =>
                shrunk receiver_lamports (u64sub ctx.funding_lamports remaining_lamports)
          else shrunk ctx.signer_lamports ctx.funding_lamports
        else
          let new_lamports := ctx.rent_minimum_balance new_size
          let additional_lamports := u64sub new_lamports ctx.funding_lamports
          let grown : Nat → Nat → Except ProgErr ConfigureOutcome :=
            fun signer_lamports funding_lamports =>
              .ok
                { account :=
                    { fixed := new_fixed
                      data_points :=
                        a.data_points.take new_count ++
                          List.replicate (new_count - a.data_points.length) none }
                  signer_lamports := signer_lamports
                  funding_lamports := funding_lamports }
          if additional_lamports > 0 then
            if ¬ctx.signer_is_writable then .error .AccountsNeedToBeWritable
            else if ctx.signer_lamports < additional_lamports then .error .InvalidAccountData
            else
              grown (ctx.signer_lamports - additional_lamports)
                (ctx.funding_lamports + additional_lamports)
          else grown ctx.signer_lamports ctx.funding_lamports

/-! ## Funding relayer: `src/bot/src/services/funding_relayer.rs` -/

namespace Relayer

def SNAPSHOT_TIMEOUT_SECS : Nat := 30

/-- `MarketFundingCache` (addresses and keys are opaque `Nat` identifiers,
`last_account_update_at` is an abstract instant). -/
structure MarketFundingCache where
  address : Nat
  market : Nat
  market_index : Nat
  exchange : Exchange
  update_frequency_secs : Nat
  funding_snapshots : List Int
  last_account_update_at : Nat
deriving DecidableEq

/-- `MarketFundingCache::cache_funding_rates`: the snapshot-ring capacity
`update_frequency_secs / SNAPSHOT_TIMEOUT_SECS` (integer division). -/
def cache_funding_rates (c : MarketFundingCache) : Nat :=
  c.update_frequency_secs / SNAPSHOT_TIMEOUT_SECS

/-- `MarketFundingCache::insert_funding_rate`: when the ring is at capacity,
`Vec::remove(0)` drops the oldest snapshot before pushing the new one.
`Vec::remove(0)` on an empty vector panics with an index-out-of-bounds,
modelled as `none`. -/
def insert_funding_rate (c : MarketFundingCache) (funding_rate : Int) :
    Option MarketFundingCache :=
  if c.funding_snapshots.length = cache_funding_rates c then
    match c.funding_snapshots with
    | [] => none
    | _ :: rest => some { c with funding_snapshots := rest ++ [funding_rate] }
  else some { c with funding_snapshots := c.funding_snapshots ++ [funding_rate] }

/-- `MarketFundingCache::get_average_funding_rate`: `Some(sum / len)` when the
ring is full, `None` otherwise.  The `i64` division `sum / (len as i64)` panics
when `len = 0` (division by zero), modelled as the outer `none`; `i64` division
truncates toward zero (`Int.tdiv`). -/
def get_average_funding_rate (c : MarketFundingCache) : Option (Option Int) :=
  let len := cache_funding_rates c
  if c.funding_snapshots.length = len then
    if len = 0 then none
    else some (some (Int.tdiv c.funding_snapshots.sum (len : Int)))
  else some none

/-- `TransactionResult` of `src/bot/src/utils/transaction.rs` (signatures and
metadata elided). -/
inductive TransactionResult
  | Success
  | Error
  | Timeout
deriving DecidableEq

/-- Outcome of the per-chunk send loop of the publish task. -/
inductive ChunkOutcome
  | Abandoned
  | Errored
  | Succeeded
deriving DecidableEq

/-- The per-chunk retry loop of the publish task
(`start_funding_relayer`, relayer task): the signed transaction is built once
before the loop; the loop breaks as `Abandoned` as soon as `retries == 2`,
resubmits the same transaction after a `Timeout` (incrementing `retries`),
and breaks on `Error` or `Success`.  `sends` counts submissions so far and
`results sends` is the outcome of the next submission; the remaining-iteration
budget `2 - retries` is the recursion fuel, so `chunk_send_loop results 0 2`
is the loop entered with `retries = 0`.  Returns the total number of
submissions performed and the terminal outcome. -/
def chunk_send_loop (results : Nat → TransactionResult) (sends : Nat) :
    Nat → Nat × ChunkOutcome
  | 0 => (sends, .Abandoned)
  | fuel + 1 =>
    match results sends with
    | .Timeout => chunk_send_loop results (sends + 1) fuel
    | .Error => (sends + 1, .Errored)
    | .Success => (sends + 1, .Succeeded)

/-- One publish-task chunk: build and sign once, then run the retry loop. -/
def publish_chunk (results : Nat → TransactionResult) : Nat × ChunkOutcome :=
  chunk_send_loop results 0 2

/-- The `Success` branch of the publish task:
`cache.iter_mut().find(|c| &c.market == market)` bumps the first cache entry
with the given market key. -/
def bump_market (cache : List MarketFundingCache) (market : Nat) (now : Nat) :
    List MarketFundingCache :=
  match cache with
  | [] => []
  | c :: rest =>
    if c.market = market then { c with last_account_update_at := now } :: rest
    else c :: bump_market rest market now

/-- On `Success`, the publish task bumps `last_account_update_at` for each
market of the sent chunk in turn. -/
def bump_chunk_markets (cache : List MarketFundingCache) (chunk : List Nat) (now : Nat) :
    List MarketFundingCache :=
  chunk.foldl (fun cache market => bump_market cache market now) cache

end Relayer

/-! ## Mango order book: `src/third-party/mango/src/iter.rs` and `lib.rs`

The two order trees of a book side are crit-bit trees over a node arena; their
in-order traversals (`OrderTreeIter`, left-then-right for asks, right-then-left
for bids) are modelled by their result: the list of `(NodeHandle, LeafNode)`
pairs each sub-iterator yields, in yield order.  The merged `BookSideIter` is
then a function of those two lists. -/

namespace Mango

inductive Side
  | Bid
  | Ask
deriving DecidableEq

inductive OrderState
  | Valid
  | Invalid
  | Skipped
deriving DecidableEq

inductive BookSideOrderTree
  | Fixed
  | OraclePegged
deriving DecidableEq

/-- `LeafNode`: `key : u128` (upper 64 bits price data, lower 64 sequence),
`quantity : i64`, `timestamp : u64`, `time_in_force : u16`, `peg_limit : i64`. -/
structure LeafNode where
  key : Nat
  quantity : Int
  timestamp : Nat
  time_in_force : Nat
  peg_limit : Int
deriving DecidableEq

/-- `LeafNode::price_data`: `(key >> 64) as u64`. -/
def LeafNode.price_data (n : LeafNode) : Nat := n.key / 2 ^ 64 % 2 ^ 64

/-- `LeafNode::is_expired`: `time_in_force > 0 && now_ts >= timestamp + time_in_force`. -/
def LeafNode.is_expired (n : LeafNode) (now_ts : Nat) : Bool :=
  decide (0 < n.time_in_force ∧ n.timestamp + n.time_in_force ≤ now_ts)

/-- `Side::is_price_better`: bids prefer greater prices, asks prefer smaller. -/
def Side.is_price_better (side : Side) (lhs rhs : Int) : Bool :=
  match side with
  | .Bid => decide (lhs > rhs)
  | .Ask => decide (lhs < rhs)

/-- `oracle_pegged_price_offset`: `price_data.wrapping_sub(u64::MAX / 2 + 1) as i64`
(`u64::MAX / 2 + 1 = 2 ^ 63`). -/
def oracle_pegged_price_offset (price_data : Nat) : Int :=
  i64ofU64 ((price_data + 2 ^ 63) % 2 ^ 64)

/-- `oracle_pegged_price` (`iter.rs`): the effective price is
`oracle_price_lots.saturating_add(offset)`; prices inside the half-open Rust
range `1..i64::MAX` are `Valid`, or `Invalid` past the `peg_limit`; anything
else is `Skipped` with the reported price clamped up to 1. -/
def oracle_pegged_price (oracle_price_lots : Int) (node : LeafNode) (side : Side) :
    OrderState × Int :=
  let price_data := node.price_data
  let price_offset := oracle_pegged_price_offset price_data
  let price := satAdd64 oracle_price_lots price_offset
  if 1 ≤ price ∧ price < 2 ^ 63 - 1 then
    if node.peg_limit ≠ -1 ∧ side.is_price_better price node.peg_limit then
      (.Invalid, price)
    else (.Valid, price)
  else (.Skipped, max price 1)

/-- `key_for_fixed_price`: replace the upper 64 bits of `key` by `price_lots`
(the source asserts `price_lots >= 1`): `((price_lots as u64) << 64) | (key as u64)`. -/
def key_for_fixed_price (key : Nat) (price_lots : Int) : Nat :=
  price_lots.toNat % 2 ^ 64 * 2 ^ 64 + key % 2 ^ 64

structure BookSideOrderHandle where
  node : Nat
  order_tree : BookSideOrderTree
deriving DecidableEq

structure BookSideIterItem where
  handle : BookSideOrderHandle
  node : LeafNode
  price_lots : Int
  state : OrderState
deriving DecidableEq

/-- `BookSideIterItem::is_valid`. -/
def BookSideIterItem.is_valid (it : BookSideIterItem) : Bool :=
  it.state == OrderState.Valid

/-- `fixed_to_result`: a fixed-tree leaf; its price is `price_data() as i64`
and expiry downgrades it to `Invalid`. -/
def fixed_to_result (fixed : Nat × LeafNode) (now_ts : Nat) : BookSideIterItem :=
  { handle := { order_tree := .Fixed, node := fixed.1 }
    node := fixed.2
    price_lots := i64ofU64 fixed.2.price_data
    state := if fixed.2.is_expired now_ts then .Invalid else .Valid }

/-- `oracle_pegged_to_result`: a pegged leaf enriched with its effective price
and state; expiry downgrades the state to `Invalid`. -/
def oracle_pegged_to_result (pegged : Nat × LeafNode × Int × OrderState) (now_ts : Nat) :
    BookSideIterItem :=
  { handle := { order_tree := .OraclePegged, node := pegged.1 }
    node := pegged.2.1
    price_lots := pegged.2.2.1
    state := if pegged.2.1.is_expired now_ts then .Invalid else pegged.2.2.2 }

/-- `rank_orders`: compare the peeked fixed and pegged leaves (the pegged key
translated by `key_for_fixed_price`) and return the one matching first (worse
one if `return_worse`). -/
def rank_orders (side : Side) (fixed : Option (Nat × LeafNode))
    (oracle_pegged : Option (Nat × LeafNode)) (return_worse : Bool) (now_ts : Nat)
    (oracle_price_lots : Int) : Option BookSideIterItem :=
  let oracle_pegged2 := oracle_pegged.map fun ho =>
    let sp := oracle_pegged_price oracle_price_lots ho.2 side
    (ho.1, ho.2, sp.2, sp.1)
  match fixed, oracle_pegged2 with
  | some f, some o =>
    let is_better : Nat → Nat → Bool := fun a b =>
      match side with
      | .Bid => decide (a > b)
      | .Ask => decide (a < b)
    if (is_better f.2.key (key_for_fixed_price o.2.1.key o.2.2.1)).xor return_worse then
      some (fixed_to_result f now_ts)
    else some (oracle_pegged_to_result o now_ts)
  | none, some o => some (oracle_pegged_to_result o now_ts)
  | some f, none => some (fixed_to_result f now_ts)
  | none, none => none

/-- Whether a pegged leaf is skipped for the current oracle price: the loop
condition of `BookSideIter::next`'s skip phase. -/
def pegged_is_skipped (oracle_price_lots : Int) (side : Side) (fo : Nat × LeafNode) : Bool :=
  (oracle_pegged_price oracle_price_lots fo.2 side).1 == OrderState.Skipped

/-- The skip phase of `BookSideIter::next` (`iter.rs`), acting on the pegged
sub-iterator's remaining yield sequence.  The source initialises
`o_peek = self.oracle_pegged_iter.peek()` and, while `o_peek` holds a skipped
leaf, executes `o_peek = self.oracle_pegged_iter.next()`; `OrderTreeIter::next`
returns the same leaf `peek` reports and then advances.  Hence when the first
leaf is not skipped the loop exits at once with the sub-iterator untouched;
but once the first leaf is skipped, every further loop iteration consumes a
leaf, and the loop exits with `o_peek` holding the first non-skipped leaf
while the sub-iterator has already advanced past it — that leaf will not be
yielded by any later `next` call.  (With `l = fo :: rest` and `fo` skipped the
successive `o_peek` values are `fo, fo, rest₀, rest₁, …`, each `next` removing
one leaf, so the loop ends at the first non-skipped element `b` of `rest` with
the iterator positioned after `b`.)  Returns the final `o_peek` and the
sub-iterator's remaining sequence. -/
def oracle_pegged_skip (oracle_price_lots : Int) (side : Side)
    (pegged_leaves : List (Nat × LeafNode)) :
    Option (Nat × LeafNode) × List (Nat × LeafNode) :=
  match pegged_leaves with
  | [] => (none, [])
  | fo :: rest =>
    if pegged_is_skipped oracle_price_lots side fo then
      match rest.dropWhile (pegged_is_skipped oracle_price_lots side) with
      | [] => (none, [])
      | b :: rest2 => (some b, rest2)
    else (some fo, fo :: rest)

/-- `BookSideIter::next`, iterated to exhaustion over the two leaf sequences.
Each `next` first runs the skip phase (`oracle_pegged_skip`; after a skipped
run the peeked leaf is already consumed from the sub-iterator), then ranks the
two peeked leaves and advances the chosen side's sub-iterator — so in the
pegged case, when the skip phase ran, the advance drops yet another leaf.
`fuel` bounds the number of `next` calls; every yielding call consumes at
least one leaf, so `fixed.length + pegged.length` calls exhaust the book (see
`book_side_iter`). -/
def book_side_iter_go (side : Side) (now_ts : Nat) (oracle_price_lots : Int) :
    Nat → List (Nat × LeafNode) → List (Nat × LeafNode) → List BookSideIterItem
  | 0, _, _ => []
  | fuel + 1, fixed_leaves, pegged_leaves =>
    let os := oracle_pegged_skip oracle_price_lots side pegged_leaves
    match rank_orders side fixed_leaves.head? os.1 false now_ts oracle_price_lots with
    | none => []
    | some better =>
      match better.handle.order_tree with
      | .Fixed =>
        better :: book_side_iter_go side now_ts oracle_price_lots fuel fixed_leaves.tail os.2
      | .OraclePegged =>
        better :: book_side_iter_go side now_ts oracle_price_lots fuel fixed_leaves os.2.tail

/-- The full yield sequence of `BookSideIter` over a book side whose fixed and
pegged sub-iterators yield `fixed_leaves` and `pegged_leaves`. -/
def book_side_iter (side : Side) (now_ts : Nat) (oracle_price_lots : Int)
    (fixed_leaves pegged_leaves : List (Nat × LeafNode)) : List BookSideIterItem :=
  book_side_iter_go side now_ts oracle_price_lots
    (fixed_leaves.length + pegged_leaves.length) fixed_leaves pegged_leaves

/-! ### Mango funding math: `src/third-party/mango/src/lib.rs`

`I80F48` (128-bit fixed point, 48 fractional bits) is modelled by its raw
`i128` bit value: the number `x` is represented by `x * 2^48`.  Lossy
operations of the `fixed` crate round toward negative infinity (`Int.fdiv`);
`checked_mul` fails when the result leaves the `i128` range; division by zero
and `to_num` of a non-finite divisor panic, modelled as `none`. -/

/-- `I80F48::from_num` on an integer: raw value `n << 48`. -/
def i80_from_num (n : Int) : Int := n * 2 ^ 48

/-- `I80F48` multiplication on raw values (floor of the exact product). -/
def i80_mul (a b : Int) : Int := Int.fdiv (a * b) (2 ^ 48)

/-- `I80F48::checked_mul`: `none` when the exact product leaves the `i128`
raw-value range. -/
def i80_checked_mul (a b : Int) : Option Int :=
  let r := i80_mul a b
  if -(2 ^ 127) ≤ r ∧ r < 2 ^ 127 then some r else none

/-- `I80F48` division on raw values; division by zero panics (`none`). -/
def i80_div (a b : Int) : Option Int :=
  if b = 0 then none else some (Int.fdiv (a * 2 ^ 48) b)

/-- `I80F48::to_num::<i64>()`: drop the fractional bits (floor), reduced into
the `i64` range. -/
def i80_to_i64 (a : Int) : Int := wrap64 (Int.fdiv a (2 ^ 48))

/-- The fields of `accounts::PerpMarket` used by the funding computation.
`min_funding`, `max_funding` are `I80F48` raw values
(`mango_i80_f48_into_fixed` is a bit-for-bit conversion). -/
structure PerpMarket where
  base_decimals : Nat
  base_lot_size : Int
  quote_lot_size : Int
  impact_quantity : Int
  min_funding : Int
  max_funding : Int
deriving DecidableEq

/-- `PerpMarket::mango_native_price_to_lot`: `price * base_lot_size / quote_lot_size`
as an `i64` lot count. -/
def mango_native_price_to_lot (m : PerpMarket) (price : Int) : Option Int :=
  (i80_checked_mul price (i80_from_num m.base_lot_size)).bind fun p =>
    (i80_div p (i80_from_num m.quote_lot_size)).map fun q => i80_to_i64 q

/-- `PerpMarket::lot_to_mango_native`: `price * quote_lot_size / base_lot_size`
as an `I80F48` (the trailing `to_num::<I80F48>` is the identity). -/
def lot_to_mango_native (m : PerpMarket) (price : Int) : Option Int :=
  (i80_checked_mul (i80_from_num price) (i80_from_num m.quote_lot_size)).bind fun p =>
    i80_div p (i80_from_num m.base_lot_size)

/-- A `BookSide`, reduced to the side tag read from the arena's
`order_tree_type` and the yield sequences of its two sub-iterators. -/
structure BookSide where
  side : Side
  fixed_leaves : List (Nat × LeafNode)
  oracle_pegged_leaves : List (Nat × LeafNode)
deriving DecidableEq

def BookSide.iter_items (b : BookSide) (now_ts : Nat) (oracle_price_lots : Int) :
    List BookSideIterItem :=
  book_side_iter b.side now_ts oracle_price_lots b.fixed_leaves b.oracle_pegged_leaves

/-- The accumulation loop of `BookSide::impact_price` over the valid items. -/
def impact_price_go (quantity : Int) : List BookSideIterItem → Int → Option Int
  | [], _ => none
  | it :: rest, sum =>
    let s := sum + it.node.quantity
    if s ≥ quantity then some it.price_lots else impact_price_go quantity rest s

/-- `BookSide::impact_price`: the first `price_lots` at which the running sum
of valid quantities reaches `quantity`; `none` when the depth is insufficient. -/
def BookSide.impact_price (b : BookSide) (quantity : Int) (now_ts : Nat)
    (oracle_price_lots : Int) : Option Int :=
  impact_price_go quantity ((b.iter_items now_ts oracle_price_lots).filter
    (fun it => it.is_valid)) 0

/-- `PerpMarket::calculate_funding_rate`: probe both impact prices at depth
`impact_quantity`; with both present, clamp the mid-vs-oracle rate into
`[min_funding, max_funding]` (Rust's `Ord::clamp` panics when
`min_funding > max_funding`, modelled as `none`); with only a bid use
`max_funding`, only an ask `min_funding`, neither `0`; finally scale by
`1e8 * 365` (two `I80F48`-by-integer multiplications, exact on the raw value
up to `i128` wrapping) and truncate to `i64`. -/
def calculate_funding_rate (m : PerpMarket) (bids asks : BookSide) (oracle_price : Int)
    (now_ts : Nat) : Option Int :=
  (mango_native_price_to_lot m oracle_price).bind fun oracle_price_lots =>
    let bid := bids.impact_price m.impact_quantity now_ts oracle_price_lots
    let ask := asks.impact_price m.impact_quantity now_ts oracle_price_lots
    let funding_rate : Option Int :=
      match bid, ask with
      | some b, some a =>
        let mid_price := Int.tdiv (b + a) 2
        (lot_to_mango_native m mid_price).bind fun book_price =>
          (i80_div book_price oracle_price).bind fun q =>
            let diff := q - i80_from_num 1
            if m.min_funding ≤ m.max_funding then
              some (max m.min_funding (min m.max_funding diff))
            else none
      | some _, none => some m.max_funding
      | none, some _ => some m.min_funding
      | none, none => some 0
    funding_rate.map fun fr =>
      i80_to_i64 (wrap128 (wrap128 (fr * 100000000) * 365))

end Mango

/-! ## Theorems -/

/-- The EMA recurrence as the specification states it: seed with the first
point, then `ema := (p - ema) * 2 / (period_length + 1) + ema` for each later
point, with truncating integer division. -/
def emaSpec (period_length : Nat) (ema : Int) : List Int → Int
  | [] => ema
  | p :: rest =>
    emaSpec period_length (Int.tdiv ((p - ema) * 2) ((period_length : Int) + 1) + ema) rest

theorem update_ema_go_eq_emaSpec (a : FundingAccount) (period : Nat) (xs : List Int) :
    ∀ (i : Nat) (ema : Int),
      (∀ j (hj : j < xs.length),
        FundingAccountLoader.load_data_point a (i + j) = some (xs.get ⟨j, hj⟩)) →
      FundingAccountLoader.update_ema_go a ((period : Int) + 1) ema i xs.length
        = some (emaSpec period ema xs) := by
  induction xs with
  | nil => intro i ema _; rfl
  | cons x xs ih =>
    intro i ema h
    have h0 : FundingAccountLoader.load_data_point a i = some x := by
      have := h 0 (by simp)
      simpa using this
    show FundingAccountLoader.update_ema_go a ((period : Int) + 1) ema i (xs.length + 1)
      = some (emaSpec period ema (x :: xs))
    rw [FundingAccountLoader.update_ema_go, h0]
    exact ih (i + 1) _ fun j hj => by
      have := h (j + 1) (by simpa using Nat.succ_lt_succ hj)
      simpa [Nat.add_comm, Nat.add_assoc, Nat.add_left_comm] using this

/-- The funding account of the `tests::ema` unit test (`state.rs`):
`period_length = 5`, `data_points_count = 12`, data points
`1_000_000 * (1..=12)` in ring order. -/
def ema_test_account : FundingAccount :=
  { fixed :=
      { bump := 0, id := 0, exchange := .Drift, market_index := 0, authority := 0
        last_updated_ts := 0
        config :=
          { update_frequency_secs := 0, staleness_threshold_secs := 0
            period_length := 5, data_points_count := 12 }
        funding_ema := none }
    data_points := (List.range 12).map fun i => some (((i : Int) + 1) * 1000000) }

/-- C1: on a full data-point ring, `update_ema` stores exactly the EMA obtained
by seeding with `points[0]` and folding
`ema := (points[i] - ema) * 2 / (period_length + 1) + ema` over
`i = 1 .. data_points_count - 1` with truncating integer division; in
particular, for `period_length = 5` and the twelve points
`1_000_000, ..., 12_000_000` the stored `funding_ema` is `some 10023121`. -/
theorem C1_update_ema (a : FundingAccount) (p0 : Int) (xs : List Int)
    (hdp : a.data_points = (p0 :: xs).map some)
    (hcount : a.fixed.config.data_points_count = xs.length + 1) :
    FundingAccountLoader.update_ema a
      = some { a with fixed := { a.fixed with
          funding_ema := some (emaSpec a.fixed.config.period_length p0 xs) } }
    ∧ FundingAccountLoader.update_ema ema_test_account
      = some { ema_test_account with fixed := { ema_test_account.fixed with
          funding_ema := some 10023121 } } := by
  constructor
  · have h0 : FundingAccountLoader.load_data_point a 0 = some p0 := by
      simp [FundingAccountLoader.load_data_point, hdp]
    rw [FundingAccountLoader.update_ema, h0]
    have hgo := update_ema_go_eq_emaSpec a a.fixed.config.period_length xs 1
      p0 (fun j hj => by
        simp only [FundingAccountLoader.load_data_point, hdp]
        rw [List.getD_eq_getElem?_getD]
        rw [List.getElem?_map]
        rw [Nat.add_comm 1 j]
        rw [List.getElem?_cons_succ]
        rw [List.getElem?_eq_getElem hj]
        simp [List.get_eq_getElem])
    rw [hcount]
    simp only [Nat.add_sub_cancel]
    rw [hgo]
    rfl
  · decide

/-- Witness for C1 at the unit test's concrete account. -/
theorem C1_update_ema_witness :
    FundingAccountLoader.update_ema ema_test_account
      = some { ema_test_account with fixed := { ema_test_account.fixed with
          funding_ema := some 10023121 } } :=
  (C1_update_ema ema_test_account 1000000
    [2000000, 3000000, 4000000, 5000000, 6000000, 7000000, 8000000, 9000000,
      10000000, 11000000, 12000000] (by decide) (by decide)).2

/-- C2: an `Update` on a validly loaded account resets the account (new point
at slot 0, all other slots `None`, EMA cleared, `last_updated_ts := now`) and
succeeds whenever `now > last_updated_ts + staleness_threshold_secs`,
regardless of `update_frequency_secs`; otherwise it fails with `UpdateTooSoon`
exactly when `now < last_updated_ts + update_frequency_secs` (failure returns
before any state is written back).  The range hypotheses keep the source's
`u64 → i64` casts and `i64` additions free of wrapping. -/
theorem C2_update_funding (a : FundingAccount) (p now : Int)
    (hlo : -(2 ^ 63) ≤ a.fixed.last_updated_ts)
    (hstale : a.fixed.config.staleness_threshold_secs < 2 ^ 63)
    (hfreq : a.fixed.config.update_frequency_secs < 2 ^ 63)
    (hsum1 : a.fixed.last_updated_ts + (a.fixed.config.staleness_threshold_secs : Int) < 2 ^ 63)
    (hsum2 : a.fixed.last_updated_ts + (a.fixed.config.update_frequency_secs : Int) < 2 ^ 63) :
    (now > a.fixed.last_updated_ts + (a.fixed.config.staleness_threshold_secs : Int) →
      update_funding a p now = .ok
        { a with
          fixed := { a.fixed with funding_ema := none, last_updated_ts := now }
          data_points :=
            some p :: List.replicate (a.fixed.config.data_points_count - 1) none })
    ∧ (now ≤ a.fixed.last_updated_ts + (a.fixed.config.staleness_threshold_secs : Int) →
        (update_funding a p now = .error .UpdateTooSoon ↔
          now < a.fixed.last_updated_ts + (a.fixed.config.update_frequency_secs : Int))) := by
  have e1 : wrap64 (a.fixed.last_updated_ts + i64ofU64 a.fixed.config.staleness_threshold_secs)
      = a.fixed.last_updated_ts + (a.fixed.config.staleness_threshold_secs : Int) := by
    rw [i64ofU64_eq_self hstale]
    refine wrap64_eq_self ?_ hsum1
    have : (0 : Int) ≤ (a.fixed.config.staleness_threshold_secs : Int) := Int.ofNat_nonneg _
    omega
  have e2 : wrap64 (a.fixed.last_updated_ts + i64ofU64 a.fixed.config.update_frequency_secs)
      = a.fixed.last_updated_ts + (a.fixed.config.update_frequency_secs : Int) := by
    rw [i64ofU64_eq_self hfreq]
    refine wrap64_eq_self ?_ hsum2
    have : (0 : Int) ≤ (a.fixed.config.update_frequency_secs : Int) := Int.ofNat_nonneg _
    omega
  constructor
  · intro h
    unfold update_funding
    rw [e1, if_pos h]
    rfl
  · intro h
    unfold update_funding
    rw [e1, if_neg (by omega), e2]
    by_cases hlt : now < a.fixed.last_updated_ts + (a.fixed.config.update_frequency_secs : Int)
    · rw [if_pos hlt]
      simp [hlt]
    · rw [if_neg hlt]
      cases hupd : FundingAccountLoader.update_data_points a p with
      | none => simp [hlt]
      | some a1 => simp [hlt]

/-- A concrete account for the C2 witness: `last_updated_ts = 0`,
`update_frequency_secs = 300`, `staleness_threshold_secs = 600`, 12 slots. -/
def c2_account : FundingAccount :=
  { fixed :=
      { bump := 0, id := 0, exchange := .Drift, market_index := 0, authority := 0
        last_updated_ts := 0
        config :=
          { update_frequency_secs := 300, staleness_threshold_secs := 600
            period_length := 5, data_points_count := 12 }
        funding_ema := some 7 }
    data_points := List.replicate 12 none }

/-- Witness for C2: a stale update (`now = 700 > 0 + 600`) resets the account. -/
theorem C2_update_funding_witness :
    update_funding c2_account 42 700 = .ok
      { c2_account with
        fixed := { c2_account.fixed with funding_ema := none, last_updated_ts := 700 }
        data_points := some 42 :: List.replicate 11 none } :=
  (C2_update_funding c2_account 42 700 (by decide) (by decide) (by decide) (by decide)
    (by decide)).1 (by decide)

theorem shape_getD_lt (xs : List Int) (k i : Nat) (hi : i < xs.length) :
    (xs.map some ++ List.replicate k (none : Option Int)).getD i none
      = some (xs.get ⟨i, hi⟩) := by
  rw [List.getD_eq_getElem?_getD, List.getElem?_append]
  rw [if_pos (by simpa using hi), List.getElem?_map, List.getElem?_eq_getElem hi]
  simp [List.get_eq_getElem]

theorem shape_getD_eq (xs : List Int) (k : Nat) (hk : 0 < k) :
    (xs.map some ++ List.replicate k (none : Option Int)).getD xs.length none = none := by
  rw [List.getD_eq_getElem?_getD, List.getElem?_append]
  rw [if_neg (by simp)]
  simp [List.getElem?_replicate, hk]

theorem find_first_none_shape (a : FundingAccount) (xs : List Int) (count : Nat)
    (hshape : a.data_points = xs.map some ++ List.replicate (count - xs.length) none)
    (hxs : xs.length ≤ count) :
    ∀ (fuel i : Nat), i + fuel = count → i ≤ xs.length →
      FundingAccountLoader.find_first_none_from a i fuel
        = if xs.length < count then some xs.length else none := by
  intro fuel
  induction fuel with
  | zero =>
    intro i hi hile
    have : xs.length = count := by omega
    rw [if_neg (by omega)]
    rfl
  | succ fuel ih =>
    intro i hi hile
    rw [FundingAccountLoader.find_first_none_from]
    rcases Nat.lt_or_ge i xs.length with hlt | hge
    · have hload : FundingAccountLoader.load_data_point a i = some (xs.get ⟨i, hlt⟩) := by
        rw [FundingAccountLoader.load_data_point, hshape]
        exact shape_getD_lt xs _ i hlt
      rw [hload]
      simp only [Option.isNone_some, Bool.false_eq_true, if_false]
      exact ih (i + 1) (by omega) (by omega)
    · have hieq : i = xs.length := by omega
      have hcnt : xs.length < count := by omega
      have hload : FundingAccountLoader.load_data_point a i = none := by
        rw [FundingAccountLoader.load_data_point, hshape, hieq]
        exact shape_getD_eq xs _ (by omega)
      rw [hload]
      simp only [Option.isNone_none, if_true]
      rw [if_pos hcnt, hieq]

theorem update_ema_data_points {b a' : FundingAccount}
    (h : FundingAccountLoader.update_ema b = some a') : a'.data_points = b.data_points := by
  unfold FundingAccountLoader.update_ema at h
  cases hl : FundingAccountLoader.load_data_point b 0 with
  | none => rw [hl] at h; exact absurd h (by simp)
  | some e =>
    rw [hl] at h
    simp only [Option.map_eq_some'] at h
    obtain ⟨ema, _, rfl⟩ := h
    rfl

/-- C3: `update_data_points` on a ring of exactly `data_points_count` slots
whose occupied slots form a prefix — when at least one slot is vacant, the new
point goes into the first vacant slot (so the newest point sits at the highest
occupied index) and the fixed header, `funding_ema` included, is untouched;
when every slot is occupied, the ring shifts left by one slot (dropping the
oldest value at index 0), the new point is written at index
`data_points_count - 1`, and the EMA is recomputed by `update_ema`.  In both
cases the ring keeps exactly `data_points_count` slots. -/
theorem C3_update_data_points (a : FundingAccount) (p : Int) (xs : List Int) (count : Nat)
    (hc : a.fixed.config.data_points_count = count)
    (hshape : a.data_points = xs.map some ++ List.replicate (count - xs.length) none)
    (hxs : xs.length ≤ count) :
    (xs.length < count →
      FundingAccountLoader.update_data_points a p
        = some { a with data_points :=
            (xs ++ [p]).map some ++ List.replicate (count - (xs.length + 1)) none })
    ∧ (xs.length = count →
        FundingAccountLoader.update_data_points a p
          = FundingAccountLoader.update_ema
              { a with data_points := (xs.tail ++ [p]).map some }
        ∧ ∀ a', FundingAccountLoader.update_data_points a p = some a' →
            a'.data_points = (xs.tail ++ [p]).map some) := by
  have hfind := find_first_none_shape a xs count hshape hxs count 0 (by omega) (by omega)
  constructor
  · intro hlt
    rw [FundingAccountLoader.update_data_points, hc, hfind, if_pos hlt]
    show some _ = _
    have hset : a.data_points.set xs.length (some p)
        = (xs ++ [p]).map some ++ List.replicate (count - (xs.length + 1)) none := by
      rw [hshape, List.set_append_right _ _ (by simp), List.map_append]
      have hrep : count - xs.length = (count - (xs.length + 1)) + 1 := by omega
      simp only [List.length_map, Nat.sub_self, hrep, List.replicate_succ, List.set_cons_zero]
      simp
    simp only [hset]
  · intro heq
    have hfull : FundingAccountLoader.update_data_points a p
        = FundingAccountLoader.update_ema
            { a with data_points := (xs.tail ++ [p]).map some } := by
      rw [FundingAccountLoader.update_data_points, hc, hfind, if_neg (by omega)]
      have htail : a.data_points.tail ++ [some p] = (xs.tail ++ [p]).map some := by
        rw [hshape, heq]
        simp
      simp only [htail]
    refine ⟨hfull, fun a' ha' => ?_⟩
    rw [hfull] at ha'
    simpa using update_ema_data_points ha'

/-- A concrete account for the C3 witness: 3 slots, one occupied. -/
def c3_account : FundingAccount :=
  { fixed :=
      { bump := 0, id := 0, exchange := .Mango, market_index := 0, authority := 0
        last_updated_ts := 0
        config :=
          { update_frequency_secs := 300, staleness_threshold_secs := 600
            period_length := 5, data_points_count := 3 }
        funding_ema := none }
    data_points := [some 5, none, none] }

/-- Witness for C3: on `[some 5, none, none]` the new point lands in slot 1. -/
theorem C3_update_data_points_witness :
    FundingAccountLoader.update_data_points c3_account 7
      = some { c3_account with data_points := [some 5, some 7, none] } :=
  (C3_update_data_points c3_account 7 [5] 3 (by decide) (by decide) (by decide)).1
    (by decide)

/-- C4 counterexample: the claimed account length `77 + 16·N` (269 bytes for
`N = 12`) disagrees with the source's `FundingAccountLoader::size`, which is
`mem::size_of::<FundingAccountFixed>() + 16·N = 96 + 16·N` (288 bytes for
`N = 12`). -/
theorem C4_size_counterexample :
    FundingAccountLoader.size 12 = 288 ∧ 77 + 16 * 12 = 269
      ∧ FundingAccountLoader.size 12 ≠ 77 + 16 * 12 := by
  refine ⟨rfl, rfl, ?_⟩
  decide

/-- C4 (amended): accounts are sized by
`FundingAccountLoader::size(N) = size_of::<FundingAccountFixed>() + 16·N
= 96 + 16·N` (the value `Initialize` allocates and `Configure` reallocates
to), and every load other than `Initialize` (`try_load`) accepts only
accounts whose data length is exactly the size implied by their stored
`data_points_count`. -/
theorem C4_account_size :
    (∀ n, FundingAccountLoader.size n = 96 + 16 * n)
    ∧ ∀ (w o : Bool) (dl : Nat) (fx : FundingAccountFixed) (pda : Bool) (s : Nat),
        try_load_checks w o dl fx pda s = .ok () →
        dl = FundingAccountLoader.size fx.config.data_points_count := by
  constructor
  · intro n; rfl
  · intro w o dl fx pda s h
    unfold try_load_checks at h
    split_ifs at h with h1 h2 h3 h4 h5 h6
    simp only [FundingAccountLoader.size, FundingAccountFixed.SIZE,
      FundingAccountFixed.DATA_POINT_SIZE] at h3 h4 ⊢
    omega

/-- A fixed header for the C4 witness (`data_points_count = 12`). -/
def c4_fixed : FundingAccountFixed :=
  { bump := 254, id := 0, exchange := .Drift, market_index := 0, authority := 3
    last_updated_ts := 0
    config :=
      { update_frequency_secs := 300, staleness_threshold_secs := 600
        period_length := 5, data_points_count := 12 }
    funding_ema := none }

/-- Witness for C4: a 288-byte account with 12 stored data points passes
`try_load`, and 288 is exactly the implied size. -/
theorem C4_account_size_witness :
    (288 : Nat) = FundingAccountLoader.size c4_fixed.config.data_points_count :=
  C4_account_size.2 true true 288 c4_fixed true 3 (by rfl)

/-- C5: an accepted `Configure` that shrinks the data-point ring clears
`funding_ema`, zeroes `last_updated_ts`, reallocates to the new size with the
whole data-point region zero-initialised (every point reads `None`), refunds
exactly `current_lamports - new_rent` to the signer, and leaves the account
holding exactly the new rent-exempt minimum. -/
theorem C5_configure_shrink (ctx : ConfigureCtx) (a : FundingAccount) (args : ConfigureArgs)
    (new_count : Nat)
    (hargs : args.data_points_count = some new_count)
    (hfreq : args.update_frequency_secs.getD a.fixed.config.update_frequency_secs
      < args.staleness_threshold_secs.getD a.fixed.config.staleness_threshold_secs)
    (hperiod : args.period_length ≠ some 0)
    (hcount1 : 1 < new_count)
    (hshrink : new_count < a.fixed.config.data_points_count)
    (hwritable : ctx.signer_is_writable = true)
    (hrent : ctx.rent_minimum_balance (FundingAccountLoader.size new_count)
      ≤ ctx.funding_lamports)
    (hfl : ctx.funding_lamports < 2 ^ 64)
    (hadd : ctx.signer_lamports +
        (ctx.funding_lamports - ctx.rent_minimum_balance (FundingAccountLoader.size new_count))
      < 2 ^ 64) :
    configure_funding_account ctx a args = .ok
      { account :=
          { fixed :=
              { a.fixed with
                funding_ema := none
                last_updated_ts := 0
                config :=
                  { update_frequency_secs :=
                      args.update_frequency_secs.getD a.fixed.config.update_frequency_secs
                    staleness_threshold_secs :=
                      args.staleness_threshold_secs.getD a.fixed.config.staleness_threshold_secs
                    period_length := args.period_length.getD a.fixed.config.period_length
                    data_points_count := new_count } }
            data_points := List.replicate new_count none }
        signer_lamports := ctx.signer_lamports +
          (ctx.funding_lamports - ctx.rent_minimum_balance (FundingAccountLoader.size new_count))
        funding_lamports := ctx.rent_minimum_balance (FundingAccountLoader.size new_count) } := by
  have hsub : u64sub ctx.funding_lamports
      (ctx.rent_minimum_balance (FundingAccountLoader.size new_count))
      = ctx.funding_lamports - ctx.rent_minimum_balance (FundingAccountLoader.size new_count) :=
    u64sub_eq_sub hrent hfl
  simp only [configure_funding_account, hargs]
  rw [if_neg (by omega), if_neg (by simpa using hperiod)]
  rw [if_neg (by omega), if_pos hshrink, hsub]
  set r := ctx.rent_minimum_balance (FundingAccountLoader.size new_count) with hr
  by_cases hrem : 0 < ctx.funding_lamports - r
  · rw [if_pos hrem, hwritable]
    simp only [Bool.not_true, Bool.false_eq_true, if_false]
    have hca : u64checkedAdd ctx.signer_lamports (ctx.funding_lamports - r)
        = some (ctx.signer_lamports + (ctx.funding_lamports - r)) := by
      unfold u64checkedAdd
      rw [if_pos hadd]
    rw [hca]
    have hsub2 : u64sub ctx.funding_lamports (ctx.funding_lamports - r)
        = ctx.funding_lamports - (ctx.funding_lamports - r) :=
      u64sub_eq_sub (by omega) hfl
    rw [hsub2]
    have : ctx.funding_lamports - (ctx.funding_lamports - r) = r := by omega
    rw [this]
    simp
  · rw [if_neg hrem]
    have h0 : ctx.funding_lamports - r = 0 := by omega
    have hfr : ctx.funding_lamports = r := by omega
    rw [h0, hfr]
    simp

/-- Concrete inputs for the C5 witness: shrink a 12-slot account to 10 slots
with a rent function of 10 lamports per byte. -/
def c5_ctx : ConfigureCtx :=
  { rent_minimum_balance := fun size => 10 * size
    signer_is_writable := true
    signer_lamports := 5000
    funding_lamports := 10 * FundingAccountLoader.size 12 }

def c5_account : FundingAccount :=
  { fixed :=
      { bump := 255, id := 1, exchange := .Drift, market_index := 2, authority := 9
        last_updated_ts := 111
        config :=
          { update_frequency_secs := 300, staleness_threshold_secs := 600
            period_length := 5, data_points_count := 12 }
        funding_ema := some 424242 }
    data_points := some 1 :: some 2 :: List.replicate 10 none }

def c5_args : ConfigureArgs :=
  { update_frequency_secs := none, staleness_threshold_secs := none
    period_length := none, data_points_count := some 10 }

/-- Witness for C5: shrinking from 12 to 10 slots refunds
`10·size(12) - 10·size(10) = 320` lamports to the signer and clears the ring. -/
theorem C5_configure_shrink_witness :
    configure_funding_account c5_ctx c5_account c5_args = .ok
      { account :=
          { fixed :=
              { c5_account.fixed with
                funding_ema := none
                last_updated_ts := 0
                config :=
                  { update_frequency_secs := 300, staleness_threshold_secs := 600
                    period_length := 5, data_points_count := 10 } }
            data_points := List.replicate 10 none }
        signer_lamports := 5000 + (10 * FundingAccountLoader.size 12 - 10 * FundingAccountLoader.size 10)
        funding_lamports := 10 * FundingAccountLoader.size 10 } :=
  C5_configure_shrink c5_ctx c5_account c5_args 10 (by decide) (by decide) (by decide)
    (by decide) (by decide) (by decide) (by decide) (by decide) (by decide)

/-- C10: every accepted `Configure` whose `data_points_count` argument is
`Some` stores `funding_ema = None`, whatever the relation between the new and
the old count (shrink, growth, or a same-size no-op resize); an accepted
`Configure` with `data_points_count = None` leaves `funding_ema` unchanged. -/
theorem C10_configure_ema (ctx : ConfigureCtx) (a : FundingAccount) (args : ConfigureArgs)
    (out : ConfigureOutcome)
    (h : configure_funding_account ctx a args = .ok out) :
    out.account.fixed.funding_ema
      = if args.data_points_count.isSome then none else a.fixed.funding_ema := by
  cases hdc : args.data_points_count with
  | none =>
    simp only [configure_funding_account, hdc] at h
    split_ifs at h with h1 h2
    simp only [Except.ok.injEq] at h
    rw [← h]
    simp
  | some new_count =>
    simp only [configure_funding_account, hdc] at h
    split_ifs at h with h1 h2 h3 h4 h5 h6 h7 h8
    all_goals first
      | (simp only [Except.ok.injEq] at h; rw [← h]; simp)
      | (rw [Option.isSome_some, if_pos rfl]
         revert h
         cases u64checkedAdd ctx.signer_lamports
           (u64sub ctx.funding_lamports (ctx.rent_minimum_balance
             (FundingAccountLoader.size new_count))) with
         | none => intro h; exact absurd h (by simp)
         | some v => intro h; simp only [Except.ok.injEq] at h; rw [← h])

/-- Concrete inputs for the C10 witness: a no-op resize (`count = 3` on a
3-slot account) with the account already holding exactly the rent minimum. -/
def c10_ctx : ConfigureCtx :=
  { rent_minimum_balance := fun _ => 1000
    signer_is_writable := true
    signer_lamports := 500
    funding_lamports := 1000 }

def c10_account : FundingAccount :=
  { fixed :=
      { bump := 0, id := 0, exchange := .Drift, market_index := 0, authority := 0
        last_updated_ts := 5
        config :=
          { update_frequency_secs := 100, staleness_threshold_secs := 200
            period_length := 7, data_points_count := 3 }
        funding_ema := some 9 }
    data_points := [some 1, none, none] }

def c10_args : ConfigureArgs :=
  { update_frequency_secs := none, staleness_threshold_secs := none
    period_length := none, data_points_count := some 3 }

def c10_out : ConfigureOutcome :=
  { account :=
      { fixed :=
          { bump := 0, id := 0, exchange := .Drift, market_index := 0, authority := 0
            last_updated_ts := 5
            config :=
              { update_frequency_secs := 100, staleness_threshold_secs := 200
                period_length := 7, data_points_count := 3 }
            funding_ema := none }
        data_points := [some 1, none, none] }
    signer_lamports := 500
    funding_lamports := 1000 }

/-- Witness for C10: even a `Configure` that keeps the count at 3 clears the
stored EMA (`some 9` becomes `none`). -/
theorem C10_configure_ema_witness :
    c10_out.account.fixed.funding_ema
      = (if c10_args.data_points_count.isSome then none
         else c10_account.fixed.funding_ema) :=
  C10_configure_ema c10_ctx c10_account c10_args c10_out (by rfl)

theorem bump_market_map_market (cache : List Relayer.MarketFundingCache) (m now : Nat) :
    (Relayer.bump_market cache m now).map (fun c => c.market)
      = cache.map fun c => c.market := by
  induction cache with
  | nil => rfl
  | cons c rest ih =>
    rw [Relayer.bump_market]
    by_cases hm : c.market = m
    · rw [if_pos hm]
      simp
    · rw [if_neg hm]
      simpa using ih

theorem bump_market_nodup (cache : List Relayer.MarketFundingCache) (m now : Nat)
    (h : (cache.map fun c => c.market).Nodup) :
    Relayer.bump_market cache m now
      = cache.map fun c =>
          if c.market = m then { c with last_account_update_at := now } else c := by
  induction cache with
  | nil => rfl
  | cons c rest ih =>
    simp only [List.map_cons, List.nodup_cons, List.mem_map] at h
    rw [Relayer.bump_market, List.map_cons]
    by_cases hm : c.market = m
    · rw [if_pos hm, if_pos hm]
      have hrest : rest.map (fun x =>
          if x.market = m then { x with last_account_update_at := now } else x) = rest := by
        have : ∀ x ∈ rest, (if x.market = m then
            { x with last_account_update_at := now } else x) = x := by
          intro x hx
          rw [if_neg]
          intro hxm
          exact h.1 ⟨x, hx, by rw [hxm, hm]⟩
        calc rest.map _ = rest.map id := List.map_congr_left this
          _ = rest := List.map_id rest
      rw [hrest]
    · rw [if_neg hm, if_neg hm, ih h.2]

theorem bump_chunk_markets_eq (chunk : List Nat) :
    ∀ (cache : List Relayer.MarketFundingCache) (now : Nat),
      (cache.map fun c => c.market).Nodup →
      Relayer.bump_chunk_markets cache chunk now
        = cache.map fun c =>
            if c.market ∈ chunk then { c with last_account_update_at := now } else c := by
  induction chunk with
  | nil =>
    intro cache now _
    rw [Relayer.bump_chunk_markets]
    simp
  | cons m ms ih =>
    intro cache now h
    have hstep : Relayer.bump_chunk_markets cache (m :: ms) now
        = Relayer.bump_chunk_markets (Relayer.bump_market cache m now) ms now := rfl
    have hnodup2 : ((Relayer.bump_market cache m now).map fun c => c.market).Nodup := by
      rw [bump_market_map_market]; exact h
    rw [hstep, ih _ now hnodup2, bump_market_nodup cache m now h, List.map_map]
    refine List.map_congr_left ?_
    intro c _
    by_cases hm : c.market = m
    · by_cases hms : c.market ∈ ms <;>
        simp [Function.comp, hm, hms, List.mem_cons]
    · by_cases hms : c.market ∈ ms <;>
        simp [Function.comp, hm, hms, List.mem_cons]

/-- C8 counterexample: with every submission timing out, the publish task's
retry loop performs exactly 2 submissions of the chunk's transaction and then
abandons it — not the 3 submissions (2 retries after the first send) the claim
states. -/
theorem C8_publish_chunk_counterexample :
    Relayer.publish_chunk (fun _ => Relayer.TransactionResult.Timeout)
        = (2, Relayer.ChunkOutcome.Abandoned)
    ∧ (Relayer.publish_chunk fun _ => Relayer.TransactionResult.Timeout).1 ≠ 3 := by
  constructor
  · rfl
  · decide

/-- C8 (amended): per chunk the transaction is built and signed once (the loop
resubmits the same value); the loop performs at most 2 submissions in total —
after a `Timeout` it resubmits the identical signed transaction at most 1 more
time before abandoning the chunk; an `Error` outcome ends the chunk
immediately; and only a `Success` outcome bumps `last_account_update_at`, and
it bumps exactly the cache entries whose market is in the sent chunk (markets
being pairwise distinct in the cache). -/
theorem C8_publish_chunk (results : Nat → Relayer.TransactionResult)
    (cache : List Relayer.MarketFundingCache) (chunk : List Nat) (now : Nat)
    (hnodup : (cache.map fun c => c.market).Nodup) :
    (Relayer.publish_chunk results).1 ≤ 2
    ∧ (Relayer.publish_chunk results = (1, .Errored) ↔ results 0 = .Error)
    ∧ (Relayer.publish_chunk results = (1, .Succeeded) ↔ results 0 = .Success)
    ∧ (Relayer.publish_chunk results = (2, .Errored) ↔
        results 0 = .Timeout ∧ results 1 = .Error)
    ∧ (Relayer.publish_chunk results = (2, .Succeeded) ↔
        results 0 = .Timeout ∧ results 1 = .Success)
    ∧ (Relayer.publish_chunk results = (2, .Abandoned) ↔
        results 0 = .Timeout ∧ results 1 = .Timeout)
    ∧ Relayer.bump_chunk_markets cache chunk now
        = cache.map fun c =>
            if c.market ∈ chunk then { c with last_account_update_at := now } else c := by
  refine ⟨?_, ?_, ?_, ?_, ?_, ?_, bump_chunk_markets_eq chunk cache now hnodup⟩
  all_goals
    cases h0 : results 0 <;>
      [skip; skip; cases h1 : results 1] <;>
      simp_all [Relayer.publish_chunk, Relayer.chunk_send_loop]

/-- Market caches for the C8 witness: two markets, one in the sent chunk. -/
def c8_cache : List Relayer.MarketFundingCache :=
  [{ address := 10, market := 1, market_index := 0, exchange := .Drift
     update_frequency_secs := 120, funding_snapshots := [5], last_account_update_at := 0 },
   { address := 11, market := 2, market_index := 1, exchange := .Mango
     update_frequency_secs := 120, funding_snapshots := [6], last_account_update_at := 0 }]

/-- Witness for C8 at a concrete run: first send times out, the single
resubmission succeeds, and only market 1 is bumped. -/
theorem C8_publish_chunk_witness :
    (Relayer.publish_chunk fun sends =>
        if sends = 0 then Relayer.TransactionResult.Timeout
        else Relayer.TransactionResult.Success).1 ≤ 2
    ∧ Relayer.bump_chunk_markets c8_cache [1] 99
        = c8_cache.map fun c =>
            if c.market ∈ [1] then { c with last_account_update_at := 99 } else c := by
  have h := C8_publish_chunk
    (fun sends => if sends = 0 then Relayer.TransactionResult.Timeout
      else Relayer.TransactionResult.Success)
    c8_cache [1] 99 (by decide)
  exact ⟨h.1, h.2.2.2.2.2.2⟩

/-- C9 counterexample: with `update_frequency_secs = 10 < 30` the snapshot
ring capacity is 0, but the relayer's cache operations are not panic-free
there: `insert_funding_rate` reaches `Vec::remove(0)` on the empty snapshot
vector (an out-of-bounds panic) and `get_average_funding_rate` reaches
`sum / 0` (a division-by-zero panic); both panics are modelled as `none`. -/
theorem C9_capacity_zero_counterexample :
    Relayer.cache_funding_rates
        { address := 0, market := 0, market_index := 0, exchange := .Drift
          update_frequency_secs := 10, funding_snapshots := []
          last_account_update_at := 0 } = 0
    ∧ Relayer.insert_funding_rate
        { address := 0, market := 0, market_index := 0, exchange := .Drift
          update_frequency_secs := 10, funding_snapshots := []
          last_account_update_at := 0 } 123 = none
    ∧ Relayer.get_average_funding_rate
        { address := 0, market := 0, market_index := 0, exchange := .Drift
          update_frequency_secs := 10, funding_snapshots := []
          last_account_update_at := 0 } = none := by
  refine ⟨rfl, rfl, rfl⟩

/-- C9 (amended): when `update_frequency_secs < SNAPSHOT_INTERVAL = 30` the
ring capacity `update_frequency_secs / 30` is 0, and on the (necessarily
empty) snapshot ring the very first `insert_funding_rate` panics
(`Vec::remove(0)` on an empty vector) and `get_average_funding_rate` panics
(division by zero), both modelled as `none`: no average — and hence no
`Update` instruction — is ever produced, but not because the operations are
panic-free. -/
theorem C9_capacity_zero (c : Relayer.MarketFundingCache) (r : Int)
    (hfreq : c.update_frequency_secs < 30)
    (hempty : c.funding_snapshots = []) :
    Relayer.cache_funding_rates c = 0
    ∧ Relayer.insert_funding_rate c r = none
    ∧ Relayer.get_average_funding_rate c = none := by
  have h0 : Relayer.cache_funding_rates c = 0 := by
    unfold Relayer.cache_funding_rates Relayer.SNAPSHOT_TIMEOUT_SECS
    omega
  refine ⟨h0, ?_, ?_⟩
  · unfold Relayer.insert_funding_rate
    rw [hempty, h0]
    rfl
  · unfold Relayer.get_average_funding_rate
    rw [hempty, h0]
    simp

/-- Witness for C9 at `update_frequency_secs = 10`. -/
theorem C9_capacity_zero_witness :
    Relayer.cache_funding_rates
        { address := 7, market := 8, market_index := 9, exchange := .Mango
          update_frequency_secs := 10, funding_snapshots := []
          last_account_update_at := 0 } = 0
    ∧ Relayer.insert_funding_rate
        { address := 7, market := 8, market_index := 9, exchange := .Mango
          update_frequency_secs := 10, funding_snapshots := []
          last_account_update_at := 0 } 55 = none
    ∧ Relayer.get_average_funding_rate
        { address := 7, market := 8, market_index := 9, exchange := .Mango
          update_frequency_secs := 10, funding_snapshots := []
          last_account_update_at := 0 } = none :=
  C9_capacity_zero _ 55 (by decide) (by rfl)

theorem head_dropWhile_false {α : Type} (p : α → Bool) (l : List α) (x : α)
    (h : (l.dropWhile p).head? = some x) : p x = false := by
  induction l with
  | nil => exact absurd h (by simp)
  | cons a l ih =>
    rw [List.dropWhile_cons] at h
    by_cases hp : p a
    · rw [if_pos hp] at h
      exact ih h
    · rw [if_neg hp] at h
      simp only [List.head?_cons, Option.some.injEq] at h
      rw [← h]
      exact Bool.not_eq_true _ ▸ hp

namespace Mango

theorem rank_orders_eq_none {side : Side} {f o : Option (Nat × LeafNode)}
    {w : Bool} {now : Nat} {op : Int}
    (h : rank_orders side f o w now op = none) : f = none ∧ o = none := by
  cases f <;> cases o <;> simp_all [rank_orders]
  split at h <;> simp_all

theorem rank_orders_fixed {side : Side} {f o : Option (Nat × LeafNode)}
    {now : Nat} {op : Int} {it : BookSideIterItem}
    (h : rank_orders side f o false now op = some it)
    (htree : it.handle.order_tree = .Fixed) :
    ∃ fx, f = some fx ∧ it = fixed_to_result fx now := by
  cases f with
  | none =>
    cases o with
    | none => exact absurd h (by simp [rank_orders])
    | some po =>
      exfalso
      simp only [rank_orders, Option.map_some', Option.map_none'] at h
      injection h with h
      rw [← h] at htree
      exact absurd htree (by simp [oracle_pegged_to_result])
  | some fx =>
    cases o with
    | none =>
      refine ⟨fx, rfl, ?_⟩
      simp only [rank_orders, Option.map_none'] at h
      injection h with h
      exact h.symm
    | some po =>
      refine ⟨fx, rfl, ?_⟩
      simp only [rank_orders, Option.map_some'] at h
      split at h
      · injection h with h
        exact h.symm
      · exfalso
        injection h with h
        rw [← h] at htree
        exact absurd htree (by simp [oracle_pegged_to_result])

theorem rank_orders_pegged {side : Side} {f o : Option (Nat × LeafNode)}
    {now : Nat} {op : Int} {it : BookSideIterItem}
    (h : rank_orders side f o false now op = some it)
    (htree : it.handle.order_tree = .OraclePegged) :
    ∃ po, o = some po ∧ it = oracle_pegged_to_result
      (po.1, po.2, (oracle_pegged_price op po.2 side).2,
        (oracle_pegged_price op po.2 side).1) now := by
  cases o with
  | none =>
    exfalso
    cases f with
    | none => exact absurd h (by simp [rank_orders])
    | some fx =>
      simp only [rank_orders, Option.map_none'] at h
      injection h with h
      rw [← h] at htree
      exact absurd htree (by simp [fixed_to_result])
  | some po =>
    cases f with
    | none =>
      refine ⟨po, rfl, ?_⟩
      simp only [rank_orders, Option.map_some', Option.map_none'] at h
      injection h with h
      exact h.symm
    | some fx =>
      refine ⟨po, rfl, ?_⟩
      simp only [rank_orders, Option.map_some'] at h
      split at h
      · exfalso
        injection h with h
        rw [← h] at htree
        exact absurd htree (by simp [fixed_to_result])
      · injection h with h
        exact h.symm

theorem oracle_pegged_skip_fst_some {op : Int} {side : Side}
    {pegged : List (Nat × LeafNode)} {b : Nat × LeafNode}
    (h : (oracle_pegged_skip op side pegged).1 = some b) :
    pegged_is_skipped op side b = false := by
  cases pegged with
  | nil => exact absurd h (by simp [oracle_pegged_skip])
  | cons fo rest =>
    simp only [oracle_pegged_skip] at h
    by_cases hs : pegged_is_skipped op side fo = true
    · rw [if_pos hs] at h
      cases hd : rest.dropWhile (pegged_is_skipped op side) with
      | nil => rw [hd] at h; exact absurd h (by simp)
      | cons b2 rest2 =>
        rw [hd] at h
        simp only [Option.some.injEq] at h
        rw [← h]
        exact head_dropWhile_false _ rest b2 (by rw [hd]; rfl)
    · rw [if_neg hs] at h
      simp only [Option.some.injEq] at h
      rw [← h]
      exact Bool.not_eq_true _ ▸ hs

theorem oracle_pegged_skip_no_skip {op : Int} {side : Side}
    {pegged : List (Nat × LeafNode)}
    (hall : ∀ fo ∈ pegged, pegged_is_skipped op side fo = false) :
    oracle_pegged_skip op side pegged = (pegged.head?, pegged) := by
  cases pegged with
  | nil => rfl
  | cons fo rest =>
    simp only [oracle_pegged_skip]
    rw [if_neg (by rw [hall fo (by simp)]; simp)]
    rfl

theorem book_side_iter_go_pegged_sound (side : Side) (now : Nat) (op : Int) :
    ∀ (fuel : Nat) (fixed pegged : List (Nat × LeafNode)) (it : BookSideIterItem),
      it ∈ book_side_iter_go side now op fuel fixed pegged →
      it.handle.order_tree = BookSideOrderTree.OraclePegged →
      ∃ fo, pegged_is_skipped op side fo = false
        ∧ it = oracle_pegged_to_result
            (fo.1, fo.2, (oracle_pegged_price op fo.2 side).2,
              (oracle_pegged_price op fo.2 side).1) now := by
  intro fuel
  induction fuel with
  | zero =>
    intro fixed pegged it hmem _
    exact absurd hmem (by simp [book_side_iter_go])
  | succ fuel ih =>
    intro fixed pegged it hmem htree
    simp only [book_side_iter_go] at hmem
    cases hranks : rank_orders side fixed.head? (oracle_pegged_skip op side pegged).1
        false now op with
    | none =>
      rw [hranks] at hmem
      simp at hmem
    | some better =>
      rw [hranks] at hmem
      simp only [List.mem_cons] at hmem
      cases htree2 : better.handle.order_tree with
      | Fixed =>
        rw [htree2] at hmem
        simp only [List.mem_cons] at hmem
        rcases hmem with hmem | hmem
        · rw [hmem, htree2] at htree
          exact absurd htree (by simp)
        · exact ih _ _ it hmem htree
      | OraclePegged =>
        rw [htree2] at hmem
        simp only [List.mem_cons] at hmem
        rcases hmem with hmem | hmem
        · obtain ⟨po, hpo, hit⟩ := rank_orders_pegged hranks htree2
          exact ⟨po, oracle_pegged_skip_fst_some hpo, hmem ▸ hit⟩
        · exact ih _ _ it hmem htree

theorem book_side_iter_go_no_skip_filter (side : Side) (now : Nat) (op : Int) :
    ∀ (fuel : Nat) (fixed pegged : List (Nat × LeafNode)),
      (∀ fo ∈ pegged, pegged_is_skipped op side fo = false) →
      fixed.length + pegged.length ≤ fuel →
      (book_side_iter_go side now op fuel fixed pegged).filter
          (fun it => it.handle.order_tree == BookSideOrderTree.OraclePegged)
        = pegged.map fun fo => oracle_pegged_to_result
            (fo.1, fo.2, (oracle_pegged_price op fo.2 side).2,
              (oracle_pegged_price op fo.2 side).1) now := by
  intro fuel
  induction fuel with
  | zero =>
    intro fixed pegged hall hlen
    have hf : fixed = [] := List.length_eq_zero.mp (by omega)
    have hp : pegged = [] := List.length_eq_zero.mp (by omega)
    subst hf; subst hp
    rfl
  | succ fuel ih =>
    intro fixed pegged hall hlen
    simp only [book_side_iter_go, oracle_pegged_skip_no_skip hall]
    cases hr : rank_orders side fixed.head? pegged.head? false now op with
    | none =>
      obtain ⟨hf, hp⟩ := rank_orders_eq_none hr
      cases pegged with
      | nil => rfl
      | cons fo rest => exact absurd hp (by simp)
    | some better =>
      cases htree : better.handle.order_tree with
      | Fixed =>
        obtain ⟨fx, hfx, hit⟩ := rank_orders_fixed hr htree
        have hfne : fixed ≠ [] := by
          intro hc; rw [hc] at hfx; exact absurd hfx (by simp)
        have hqf : (better.handle.order_tree == BookSideOrderTree.OraclePegged) = false := by
          rw [htree]; rfl
        simp only [htree]
        rw [List.filter_cons, hqf, if_neg (by simp)]
        exact ih fixed.tail pegged hall (by
          have htl : fixed.tail.length = fixed.length - 1 := by simp
          have hfl : 0 < fixed.length := List.length_pos.mpr hfne
          omega)
      | OraclePegged =>
        obtain ⟨po, hpo, hit⟩ := rank_orders_pegged hr htree
        obtain ⟨po2, rest, rfl⟩ : ∃ po2 rest, pegged = po2 :: rest := by
          cases pegged with
          | nil => exact absurd hpo (by simp)
          | cons po2 rest => exact ⟨po2, rest, rfl⟩
        simp only [List.head?_cons, Option.some.injEq] at hpo
        rw [← hpo] at hit
        have hqt : (better.handle.order_tree == BookSideOrderTree.OraclePegged) = true := by
          rw [htree]; rfl
        simp only [htree]
        rw [List.tail_cons, List.filter_cons, hqt, if_pos rfl]
        rw [ih fixed rest (fun fo hfo => hall fo (List.mem_cons_of_mem po2 hfo)) (by
          simp only [List.length_cons] at hlen
          omega)]
        rw [List.map_cons, hit]

theorem satAdd64_range_eq {a b : Int} (h1 : 1 ≤ satAdd64 a b)
    (h2 : satAdd64 a b < 2 ^ 63 - 1) : satAdd64 a b = a + b := by
  rcases le_or_lt (a + b) (2 ^ 63 - 1) with hc | hc
  · rcases le_or_lt (-(2 ^ 63)) (a + b) with hd | hd
    · unfold satAdd64
      rw [min_eq_right hc, max_eq_right hd]
    · exfalso
      unfold satAdd64 at h1
      rw [min_eq_right hc, max_eq_left (by omega)] at h1
      omega
  · exfalso
    unfold satAdd64 at h2
    rw [min_eq_left (by omega), max_eq_right (by norm_num)] at h2
    omega

theorem pegged_is_skipped_iff (op : Int) (side : Side) (fo : Nat × LeafNode) :
    pegged_is_skipped op side fo = false ↔
      1 ≤ satAdd64 op (oracle_pegged_price_offset fo.2.price_data)
      ∧ satAdd64 op (oracle_pegged_price_offset fo.2.price_data) < 2 ^ 63 - 1 := by
  simp only [pegged_is_skipped, oracle_pegged_price]
  by_cases hin : 1 ≤ satAdd64 op (oracle_pegged_price_offset fo.2.price_data)
      ∧ satAdd64 op (oracle_pegged_price_offset fo.2.price_data) < 2 ^ 63 - 1
  · rw [if_pos hin]
    by_cases hpeg : fo.2.peg_limit ≠ -1 ∧ side.is_price_better
        (satAdd64 op (oracle_pegged_price_offset fo.2.price_data)) fo.2.peg_limit
    · rw [if_pos hpeg]
      simpa using hin
    · rw [if_neg hpeg]
      simpa using hin
  · rw [if_neg hin]
    simpa using hin

theorem oracle_pegged_price_not_skipped (op : Int) (node : LeafNode) (side : Side)
    (h : (oracle_pegged_price op node side).1 ≠ OrderState.Skipped) :
    (oracle_pegged_price op node side).2
        = op + oracle_pegged_price_offset node.price_data
    ∧ 1 ≤ (oracle_pegged_price op node side).2
    ∧ (oracle_pegged_price op node side).2 < 2 ^ 63 - 1
    ∧ (oracle_pegged_price op node side).1
        = (if node.peg_limit ≠ -1 ∧ side.is_price_better
              (satAdd64 op (oracle_pegged_price_offset node.price_data)) node.peg_limit
           then OrderState.Invalid else OrderState.Valid) := by
  simp only [oracle_pegged_price] at h ⊢
  by_cases hin : 1 ≤ satAdd64 op (oracle_pegged_price_offset node.price_data)
      ∧ satAdd64 op (oracle_pegged_price_offset node.price_data) < 2 ^ 63 - 1
  · rw [if_pos hin] at h ⊢
    have heq := satAdd64_range_eq hin.1 hin.2
    by_cases hpeg : node.peg_limit ≠ -1 ∧ side.is_price_better
        (satAdd64 op (oracle_pegged_price_offset node.price_data)) node.peg_limit
    · rw [if_pos hpeg]
      rw [if_pos hpeg] at h ⊢
      exact ⟨heq.symm ▸ rfl, hin.1, hin.2, rfl⟩
    · rw [if_neg hpeg]
      rw [if_neg hpeg] at h ⊢
      exact ⟨heq.symm ▸ rfl, hin.1, hin.2, rfl⟩
  · exfalso
    rw [if_neg hin] at h
    exact h rfl

/-- C6 (amended): the merged book-side iterator computes an oracle-pegged
leaf's effective price as `oracle_price_lots + offset` (saturating `i64`
addition), and a leaf is skipped exactly when that price falls outside the
half-open range `[1, i64::MAX)` of the source's `(1..i64::MAX).contains` test.
Every pegged leaf the iterator yields is non-skipped — its price lies in
`[1, i64::MAX)`, equals the exact (unsaturated) sum, and its state is `Valid`,
or `Invalid` when expired or past its `peg_limit`; hence a leaf whose computed
price is outside `[1, i64::MAX)` — including exactly `i64::MAX` — never
appears.  "Yields exactly when the price is in range" holds only when no
pegged leaf is skipped: the skip loop's `o_peek = next()` consumes the first
non-skipped leaf and the post-rank `next()` consumes another, so after any
skipped run the iterator silently drops an in-range pegged leaf. -/
theorem C6_oracle_pegged_iter (side : Side) (now : Nat) (op : Int)
    (fixed pegged : List (Nat × LeafNode)) :
    (∀ fo : Nat × LeafNode,
        pegged_is_skipped op side fo = false ↔
          1 ≤ satAdd64 op (oracle_pegged_price_offset fo.2.price_data)
          ∧ satAdd64 op (oracle_pegged_price_offset fo.2.price_data) < 2 ^ 63 - 1)
    ∧ (∀ it ∈ book_side_iter side now op fixed pegged,
        it.handle.order_tree = BookSideOrderTree.OraclePegged →
          1 ≤ it.price_lots ∧ it.price_lots < 2 ^ 63 - 1
          ∧ it.price_lots = op + oracle_pegged_price_offset it.node.price_data
          ∧ it.state = (if it.node.is_expired now then OrderState.Invalid
              else if it.node.peg_limit ≠ -1
                  ∧ side.is_price_better it.price_lots it.node.peg_limit
                then OrderState.Invalid
              else OrderState.Valid))
    ∧ ((∀ fo ∈ pegged, pegged_is_skipped op side fo = false) →
        ((book_side_iter side now op fixed pegged).filter
            fun it => it.handle.order_tree == BookSideOrderTree.OraclePegged)
          = pegged.map fun fo => oracle_pegged_to_result
              (fo.1, fo.2, (oracle_pegged_price op fo.2 side).2,
                (oracle_pegged_price op fo.2 side).1) now) := by
  refine ⟨fun fo => pegged_is_skipped_iff op side fo, ?_, ?_⟩
  · intro it hmem htree
    simp only [book_side_iter] at hmem
    obtain ⟨fo, hskip, hit⟩ :=
      book_side_iter_go_pegged_sound side now op _ fixed pegged it hmem htree
    have hns : (oracle_pegged_price op fo.2 side).1 ≠ OrderState.Skipped := by
      intro hc
      rw [pegged_is_skipped, hc] at hskip
      exact absurd hskip (by simp)
    obtain ⟨hpr, h1, h2, hst⟩ := oracle_pegged_price_not_skipped op fo.2 side hns
    rw [hit]
    simp only [oracle_pegged_to_result]
    refine ⟨h1, h2, hpr, ?_⟩
    have hb1 : (1 : Int) ≤ op + oracle_pegged_price_offset fo.2.price_data := by
      rw [← hpr]; exact h1
    have hb2 : op + oracle_pegged_price_offset fo.2.price_data < 2 ^ 63 - 1 := by
      rw [← hpr]; exact h2
    have hsat : satAdd64 op (oracle_pegged_price_offset fo.2.price_data)
        = (oracle_pegged_price op fo.2 side).2 := by
      rw [hpr]
      exact satAdd64_eq_add (by omega) (by omega)
    by_cases hexp : fo.2.is_expired now
    · rw [if_pos hexp, if_pos hexp]
    · rw [if_neg hexp, if_neg hexp, hst, hsat]
  · intro hall
    simp only [book_side_iter]
    exact book_side_iter_go_no_skip_filter side now op
      (fixed.length + pegged.length) fixed pegged hall (Nat.le_refl _)

/-- The oracle-pegged leaf of the C6 boundary counterexample: price data
`2^63`, i.e. offset `0`; with `oracle_price_lots = i64::MAX` its computed
price is `i64::MAX` by saturating addition. -/
def c6_node : LeafNode :=
  { key := 2 ^ 63 * 2 ^ 64, quantity := 1, timestamp := 0, time_in_force := 0
    peg_limit := -1 }

/-- A pegged leaf skipped at `oracle_price_lots = 100`: price data `0` means
offset `-2^63`, so the computed price is far below `1`. -/
def c6_skip_node : LeafNode :=
  { key := 0, quantity := 1, timestamp := 0, time_in_force := 0, peg_limit := -1 }

/-- An in-range pegged leaf (offset `+1`, price `101` at oracle `100`). -/
def c6_mid_node : LeafNode :=
  { key := (2 ^ 63 + 1) * 2 ^ 64, quantity := 1, timestamp := 0
    time_in_force := 0, peg_limit := -1 }

/-- An in-range pegged leaf (offset `+2`, price `102` at oracle `100`) that
the iterator drops after the skipped run. -/
def c6_dropped_node : LeafNode :=
  { key := (2 ^ 63 + 2) * 2 ^ 64, quantity := 1, timestamp := 0
    time_in_force := 0, peg_limit := -1 }

/-- C6 counterexample, refuting "yields ... exactly when that price lies
inside [1, i64::MAX]" in two independent ways.  First, a pegged leaf whose
computed price is exactly `i64::MAX = 2^63 - 1` — inside the claim's
inclusive interval — is skipped (the source tests the half-open Rust range
`1..i64::MAX`) and the output is empty.  Second, on pegged leaves
`[skipped, price 101, price 102]` the iterator yields only the price-101 leaf:
the skip loop's `o_peek = next()` already consumed that leaf from the
sub-iterator, so the post-rank `next()` consumes — and silently drops — the
in-range price-102 leaf, which therefore never appears either. -/
theorem C6_counterexample :
    (satAdd64 (2 ^ 63 - 1) (oracle_pegged_price_offset c6_node.price_data) = 2 ^ 63 - 1
      ∧ ((1 : Int) ≤ 2 ^ 63 - 1 ∧ (2 ^ 63 - 1 : Int) ≤ 2 ^ 63 - 1)
      ∧ c6_node.is_expired 0 = false
      ∧ c6_node.peg_limit = -1
      ∧ book_side_iter .Ask 0 (2 ^ 63 - 1) [] [(0, c6_node)] = [])
    ∧ (satAdd64 100 (oracle_pegged_price_offset c6_dropped_node.price_data) = 102
      ∧ ((1 : Int) ≤ 102 ∧ (102 : Int) ≤ 2 ^ 63 - 1)
      ∧ c6_dropped_node.is_expired 0 = false
      ∧ c6_dropped_node.peg_limit = -1
      ∧ book_side_iter .Bid 0 100 []
          [(0, c6_skip_node), (1, c6_mid_node), (2, c6_dropped_node)]
        = [{ handle := { node := 1, order_tree := .OraclePegged }
             node := c6_mid_node, price_lots := 101, state := .Valid }]) := by
  refine ⟨⟨by decide, ⟨by decide, by decide⟩, by decide, by decide, by decide⟩,
    by decide, ⟨by decide, by decide⟩, by decide, by decide, by decide⟩

/-- An in-range oracle-pegged leaf for the C6 witness: offset `+5`. -/
def c6_valid_node : LeafNode :=
  { key := (2 ^ 63 + 5) * 2 ^ 64 + 77, quantity := 2, timestamp := 0
    time_in_force := 0, peg_limit := -1 }

/-- Witness for C6 at a concrete skip-free one-leaf book, discharging the
no-skipped-leaf hypothesis of the exactness conjunct. -/
theorem C6_oracle_pegged_iter_witness :
    ((book_side_iter Side.Bid 0 100 [] [(3, c6_valid_node)]).filter
        fun it => it.handle.order_tree == BookSideOrderTree.OraclePegged)
      = ([(3, c6_valid_node)].map
          fun fo => oracle_pegged_to_result
            (fo.1, fo.2, (oracle_pegged_price 100 fo.2 Side.Bid).2,
              (oracle_pegged_price 100 fo.2 Side.Bid).1) 0) :=
  (C6_oracle_pegged_iter Side.Bid 0 100 [] [(3, c6_valid_node)]).2.2 (by decide)

theorem i80_scale_eq (v : Int) (hv1 : -(2 ^ 90) ≤ v) (hv2 : v ≤ 2 ^ 90) :
    i80_to_i64 (wrap128 (wrap128 (v * 100000000) * 365))
      = wrap64 (Int.fdiv (v * 36500000000) (2 ^ 48)) := by
  unfold i80_to_i64
  rw [show wrap128 (v * 100000000) = v * 100000000 from
    wrap128_eq_self (by omega) (by omega)]
  rw [show v * 100000000 * 365 = v * 36500000000 from by ring]
  rw [show wrap128 (v * 36500000000) = v * 36500000000 from
    wrap128_eq_self (by omega) (by omega)]

theorem fdiv_scale_mono {lo hi v : Int} (h1 : lo ≤ v) (h2 : v ≤ hi) :
    Int.fdiv (lo * 36500000000) (2 ^ 48) ≤ Int.fdiv (v * 36500000000) (2 ^ 48)
    ∧ Int.fdiv (v * 36500000000) (2 ^ 48) ≤ Int.fdiv (hi * 36500000000) (2 ^ 48) := by
  rw [Int.fdiv_eq_ediv _ (by norm_num), Int.fdiv_eq_ediv _ (by norm_num),
    Int.fdiv_eq_ediv _ (by norm_num)]
  constructor
  · exact Int.ediv_le_ediv (by norm_num) (mul_le_mul_of_nonneg_right h1 (by norm_num))
  · exact Int.ediv_le_ediv (by norm_num) (mul_le_mul_of_nonneg_right h2 (by norm_num))

/-- C7: provided `min_funding ≤ max_funding` and the scaled results fit `i64`,
`PerpMarket::calculate_funding_rate` returns `max_funding · 1e8 · 365` when
only the bid-side impact price exists, `min_funding · 1e8 · 365` when only the
ask-side one exists, `0` when neither exists, and with both present any
returned value lies within `[min_funding · 1e8 · 365, max_funding · 1e8 · 365]`
(the mid-vs-oracle rate is clamped into `[min_funding, max_funding]` before
scaling).  Products and quotients are on `I80F48` raw values, so the scaled
bound `x · 1e8 · 365` reads `fdiv (x_raw · 36500000000) 2^48`. -/
theorem C7_calculate_funding_rate (m : PerpMarket) (bids asks : BookSide)
    (oracle_price : Int) (now_ts : Nat) (oracle_price_lots : Int)
    (hlots : mango_native_price_to_lot m oracle_price = some oracle_price_lots)
    (hminmax : m.min_funding ≤ m.max_funding)
    (hmin_lo : -(2 ^ 90) ≤ m.min_funding)
    (hmax_hi : m.max_funding ≤ 2 ^ 90)
    (hlo : -(2 ^ 63) ≤ Int.fdiv (m.min_funding * 36500000000) (2 ^ 48))
    (hhi : Int.fdiv (m.max_funding * 36500000000) (2 ^ 48) < 2 ^ 63) :
    (∀ b, bids.impact_price m.impact_quantity now_ts oracle_price_lots = some b →
      asks.impact_price m.impact_quantity now_ts oracle_price_lots = none →
      calculate_funding_rate m bids asks oracle_price now_ts
        = some (Int.fdiv (m.max_funding * 36500000000) (2 ^ 48)))
    ∧ (∀ a, bids.impact_price m.impact_quantity now_ts oracle_price_lots = none →
        asks.impact_price m.impact_quantity now_ts oracle_price_lots = some a →
        calculate_funding_rate m bids asks oracle_price now_ts
          = some (Int.fdiv (m.min_funding * 36500000000) (2 ^ 48)))
    ∧ (bids.impact_price m.impact_quantity now_ts oracle_price_lots = none →
        asks.impact_price m.impact_quantity now_ts oracle_price_lots = none →
        calculate_funding_rate m bids asks oracle_price now_ts = some 0)
    ∧ (∀ b a r, bids.impact_price m.impact_quantity now_ts oracle_price_lots = some b →
        asks.impact_price m.impact_quantity now_ts oracle_price_lots = some a →
        calculate_funding_rate m bids asks oracle_price now_ts = some r →
        Int.fdiv (m.min_funding * 36500000000) (2 ^ 48) ≤ r
        ∧ r ≤ Int.fdiv (m.max_funding * 36500000000) (2 ^ 48)) := by
  have hboth : -(2 ^ 63) ≤ Int.fdiv (m.max_funding * 36500000000) (2 ^ 48)
      ∧ Int.fdiv (m.min_funding * 36500000000) (2 ^ 48) < 2 ^ 63 := by
    have h1 := (fdiv_scale_mono (le_refl m.min_funding) hminmax).2
    exact ⟨le_trans hlo h1, lt_of_le_of_lt h1 hhi⟩
  refine ⟨?_, ?_, ?_, ?_⟩
  · intro b hb ha
    simp only [calculate_funding_rate, hlots, Option.some_bind, hb, ha, Option.map_some']
    rw [i80_scale_eq m.max_funding (le_trans hmin_lo hminmax) hmax_hi]
    rw [wrap64_eq_self hboth.1 hhi]
  · intro a hb ha
    simp only [calculate_funding_rate, hlots, Option.some_bind, hb, ha, Option.map_some']
    rw [i80_scale_eq m.min_funding hmin_lo (le_trans hminmax hmax_hi)]
    rw [wrap64_eq_self hlo hboth.2]
  · intro hb ha
    simp only [calculate_funding_rate, hlots, Option.some_bind, hb, ha, Option.map_some']
    rfl
  · intro b a r hb ha hr
    simp only [calculate_funding_rate, hlots, Option.some_bind, hb, ha] at hr
    cases hltn : lot_to_mango_native m (Int.tdiv (b + a) 2) with
    | none => rw [hltn] at hr; exact absurd hr (by simp)
    | some book_price =>
      rw [hltn] at hr
      simp only [Option.some_bind] at hr
      cases hq : i80_div book_price oracle_price with
      | none => rw [hq] at hr; exact absurd hr (by simp)
      | some q =>
        rw [hq] at hr
        simp only [Option.some_bind] at hr
        rw [if_pos hminmax] at hr
        simp only [Option.some_bind, Option.map_some', Option.some.injEq] at hr
        set v := max m.min_funding (min m.max_funding (q - i80_from_num 1)) with hv
        have hv1 : m.min_funding ≤ v := le_max_left _ _
        have hv2 : v ≤ m.max_funding := max_le hminmax (min_le_left _ _)
        have hmono := fdiv_scale_mono hv1 hv2
        rw [← hr, i80_scale_eq v (le_trans hmin_lo hv1) (le_trans hv2 hmax_hi)]
        rw [wrap64_eq_self (le_trans hlo hmono.1) (lt_of_le_of_lt hmono.2 hhi)]
        exact hmono

/-- The market of the C7 witness: unit lot sizes, `min_funding = -1.0`,
`max_funding = +1.0` in `I80F48`, impact quantity 10. -/
def c7_market : PerpMarket :=
  { base_decimals := 6, base_lot_size := 1, quote_lot_size := 1
    impact_quantity := 10, min_funding := -(2 ^ 48), max_funding := 2 ^ 48 }

/-- A bid book with one fixed leaf of quantity 10 at price 5 for the C7
witness. -/
def c7_bids : BookSide :=
  { side := .Bid
    fixed_leaves := [(0, { key := 5 * 2 ^ 64, quantity := 10, timestamp := 0
                           time_in_force := 0, peg_limit := -1 })]
    oracle_pegged_leaves := [] }

def c7_asks : BookSide :=
  { side := .Ask, fixed_leaves := [], oracle_pegged_leaves := [] }

/-- Witness for C7: with only bid-side depth, the rate is
`max_funding · 1e8 · 365 = 36_500_000_000`. -/
theorem C7_calculate_funding_rate_witness :
    calculate_funding_rate c7_market c7_bids c7_asks (2 ^ 48) 0
      = some (Int.fdiv (c7_market.max_funding * 36500000000) (2 ^ 48)) :=
  (C7_calculate_funding_rate c7_market c7_bids c7_asks (2 ^ 48) 0 1
    (by rfl) (by decide) (by decide) (by decide) (by decide) (by decide)).1
    5 (by rfl) (by rfl)

end Mango

end FundingArb
